import Mathlib

/-!
Verification of the Personal Finance Assistant backend (src/main.py,
src/schemas.py): a shallow embedding in Lean 4 of the insight engine
`analyze_finances` and of the keyword-routed chat responder, with proofs
of the specified properties.

Numbers: the Python code computes on floats; amounts are modelled as
rationals (ℚ), which is exact for the arithmetic the engine performs
(sums, negation, comparison, one guarded division).

Strings: Python `.lower()` is modelled as ASCII lowercasing (`lowerStr`);
all category and keyword strings in the repository are ASCII.
-/

/-- A transaction record as `analyze_finances` consumes it (a dict fetched
from storage): `amount` is required by the `Transaction` schema; `category`
is read with `t.get("category", "uncategorized")`, so it is modelled as
optional.  The `date`, `notes`, `account` fields are never read by the
engine and are omitted. -/
structure Txn where
  amount : ℚ
  category : Option String
deriving DecidableEq, Repr

/-- A budget record as the engine consumes it: the `Budget` schema requires
`category` and `amount` (the `period` field is never read). -/
structure Budget where
  category : String
  amount : ℚ
deriving DecidableEq, Repr

/-- ASCII lowercasing of a character, modelling Python `str.lower` on the
ASCII inputs this repository uses. -/
def lowerChar (c : Char) : Char :=
  if 'A' ≤ c ∧ c ≤ 'Z' then Char.ofNat (c.toNat + 32) else c

/-- ASCII lowercasing of a string (Python `.lower()`). -/
def lowerStr (s : String) : String :=
  ⟨s.data.map lowerChar⟩

/-- The category key a transaction is aggregated under:
`t.get("category", "uncategorized").lower()` (main.py line 120). -/
def txCategory (t : Txn) : String :=
  lowerStr (t.category.getD "uncategorized")

/-- `total_income = sum(t.get("amount", 0) for t in transactions if ... > 0)`
(main.py line 114). -/
def totalIncome (ts : List Txn) : ℚ :=
  ((ts.map Txn.amount).filter (fun a => decide (0 < a))).sum

/-- `total_expense = -sum(min(t.get("amount", 0), 0) for t in transactions)`
(main.py line 115). -/
def totalExpense (ts : List Txn) : ℚ :=
  -((ts.map Txn.amount).map (fun a => min a 0)).sum

/-- `by_category[cat] = by_category.get(cat, 0) + amount`: add `v` to the
entry of key `k` of the association list, appending a new entry at the end
when the key is absent — exactly the insertion-order semantics of a Python
dict. -/
def upsert (m : List (String × ℚ)) (k : String) (v : ℚ) : List (String × ℚ) :=
  match m with
  | [] => [(k, v)]
  | (k₁, v₁) :: rest =>
      if k₁ = k then (k₁, v₁ + v) :: rest else (k₁, v₁) :: upsert rest k v

/-- The `by_category` mapping of main.py lines 118-121, as an association
list in Python-dict iteration (insertion) order. -/
def byCategory (ts : List Txn) : List (String × ℚ) :=
  ts.foldl (fun m t => upsert m (txCategory t) t.amount) []

/-- `spent = -sum(v for k, v in by_category.items() if k == b["category"].lower() and v < 0)`
(main.py line 125). -/
def spentFor (m : List (String × ℚ)) (b : Budget) : ℚ :=
  -(((m.filter (fun kv => kv.1 == lowerStr b.category && decide (kv.2 < 0))).map
      Prod.snd).sum)

/-- An overrun record `{"category": ..., "spent": ..., "budget": ...}`
(main.py line 127). -/
structure Over where
  category : String
  spent : ℚ
  budget : ℚ
deriving DecidableEq, Repr

/-- The `overs` list of main.py lines 123-127: one record per budget whose
`spent` strictly exceeds its amount, in budget-list order. -/
def overruns (m : List (String × ℚ)) (bs : List Budget) : List Over :=
  bs.filterMap (fun b =>
    if b.amount < spentFor m b then some ⟨b.category, spentFor m b, b.amount⟩
    else none)

/-- A tip, abstracting the three f-string templates of main.py lines
129-143: the savings-rate tip carries the rate, the over-budget tip carries
the category and the overshoot `spent - budget`, the top-expense tip
carries the category and the expense magnitude. -/
inductive Tip where
  | savingsRate (rate : ℚ)
  | overBudget (category : String) (over : ℚ)
  | topExpense (category : String) (amount : ℚ)
deriving DecidableEq, Repr

/-- Main.py lines 130-132: when both totals are positive, one tip stating
`max((total_income - total_expense) / total_income, 0)`. -/
def savingsTipList (income expense : ℚ) : List Tip :=
  if 0 < expense ∧ 0 < income then
    [Tip.savingsRate (max ((income - expense) / income) 0)]
  else []

/-- Main.py lines 133-135: one tip per overrun, stating the overshoot. -/
def overTips (overs : List Over) : List Tip :=
  overs.map (fun o => Tip.overBudget o.category (o.spent - o.budget))

/-- One step of the maximum-expense scan of main.py lines 138-141:
`if val < 0 and -val > max_spend: max_spend = -val; top_exp_cat = cat`. -/
def topFoldStep (acc : Option String × ℚ) (kv : String × ℚ) :
    Option String × ℚ :=
  if kv.2 < 0 ∧ acc.2 < -kv.2 then (some kv.1, -kv.2) else acc

/-- The `(top_exp_cat, max_spend)` pair after the scan of main.py lines
136-141, starting from `(None, 0)`. -/
def topExpense (m : List (String × ℚ)) : Option String × ℚ :=
  m.foldl topFoldStep (none, 0)

/-- Main.py lines 142-143: `if top_exp_cat:` — Python truthiness, so the
tip is skipped both when `top_exp_cat` is `None` and when it is the empty
string. -/
def topTipList (m : List (String × ℚ)) : List Tip :=
  match topExpense m with
  | (some c, s) => if c = "" then [] else [Tip.topExpense c s]
  | (none, _) => []

/-- The summary dict of main.py lines 146-150. -/
structure Summary where
  income : ℚ
  expense : ℚ
  net : ℚ
deriving DecidableEq, Repr

/-- The return value of `analyze_finances`. -/
structure Insights where
  summary : Summary
  overs : List Over
  tips : List Tip
deriving DecidableEq, Repr

/-- `analyze_finances(transactions, budgets)` of main.py lines 112-153:
summary income/expense/net, the overrun records, and the tips appended in
source order (savings rate, then one per overrun, then top expense). -/
def analyze_finances (ts : List Txn) (bs : List Budget) : Insights :=
  ⟨⟨totalIncome ts, totalExpense ts, totalIncome ts - totalExpense ts⟩,
   overruns (byCategory ts) bs,
   savingsTipList (totalIncome ts) (totalExpense ts) ++
     overTips (overruns (byCategory ts) bs) ++ topTipList (byCategory ts)⟩

/-- A sentence of the chat reply (main.py lines 170-195), abstracting each
f-string template to its template identity plus the interpolated values:
`overview` is the summary sentence of line 176, `overrun` the per-overrun
sentence of line 182, `withinBudgets` the fixed sentence of line 185,
`tipPart` one entry of `insights["tips"]`, `fallbackTip` the fixed sentence
of line 187, and `defaultOverview` the default sentence of lines 192-195. -/
inductive ReplyPart where
  | overview (income expense net : ℚ)
  | overrun (category : String) (spent budget : ℚ)
  | withinBudgets
  | tipPart (t : Tip)
  | fallbackTip
  | defaultOverview (income expense : ℚ)
deriving DecidableEq, Repr

/-- Whether `k` matches at the head of `s` (character lists). -/
def leadMatch : List Char → List Char → Bool
  | [], _ => true
  | _ :: _, [] => false
  | c :: cs, d :: ds => c == d && leadMatch cs ds

/-- Whether `k` occurs inside `s` (character lists). -/
def hasSub (k : List Char) : List Char → Bool
  | [] => leadMatch k []
  | d :: ds => leadMatch k (d :: ds) || hasSub k ds

/-- Python substring test `k in s`. -/
def strContains (s k : String) : Bool :=
  hasSub k.data s.data

/-- `any(k in user_q for k in ks)`. -/
def matchesAny (q : String) (ks : List String) : Bool :=
  ks.any (fun k => strContains q k)

/-- The summary keyword list of main.py line 173. -/
def summaryKeys : List String := ["summary", "overview", "how am i doing", "net"]

/-- The budget keyword list of main.py line 178. -/
def budgetKeys : List String := ["budget", "over budget", "overspent", "overspending"]

/-- The tips keyword list of main.py line 186. -/
def tipKeys : List String := ["tip", "save", "improve", "advice"]

/-- The sentences appended by the summary block, main.py lines 173-177. -/
def summaryGroup (q : String) (ins : Insights) : List ReplyPart :=
  if matchesAny q summaryKeys then
    [ReplyPart.overview ins.summary.income ins.summary.expense ins.summary.net]
  else []

/-- The sentences appended by the budget block, main.py lines 178-185:
one overrun sentence per record, or the within-budgets sentence when
`overs` is empty. -/
def budgetGroup (q : String) (ins : Insights) : List ReplyPart :=
  if matchesAny q budgetKeys then
    if ins.overs.isEmpty then [ReplyPart.withinBudgets]
    else ins.overs.map (fun o => ReplyPart.overrun o.category o.spent o.budget)
  else []

/-- The sentences appended by the tips block, main.py lines 186-187:
`insights["tips"] or ["Keep tracking ..."]`. -/
def tipsGroup (q : String) (ins : Insights) : List ReplyPart :=
  if matchesAny q tipKeys then
    if ins.tips.isEmpty then [ReplyPart.fallbackTip]
    else ins.tips.map ReplyPart.tipPart
  else []

/-- The `reply_parts` list built by the chat handler (main.py lines
170-195) from the lowercased message and the computed insights: the
summary group, the budget group, the tips group; when all are empty, the
single default overview sentence (lines 189-195). -/
def respond (msg : String) (ins : Insights) : List ReplyPart :=
  if (summaryGroup (lowerStr msg) ins ++ budgetGroup (lowerStr msg) ins ++
      tipsGroup (lowerStr msg) ins).isEmpty then
    [ReplyPart.defaultOverview ins.summary.income ins.summary.expense]
  else
    summaryGroup (lowerStr msg) ins ++ budgetGroup (lowerStr msg) ins ++
      tipsGroup (lowerStr msg) ins

/-- The declarative description of the top-expense choice (spec §4.1 step
4): `s` is positive, position `i` of the category mapping holds `(c, -s)`,
every earlier entry has expense magnitude strictly below `s` (so `c` is the
first encountered among ties), and every entry has magnitude at most `s`. -/
def isTopExpense (m : List (String × ℚ)) (c : String) (s : ℚ) : Prop :=
  0 < s ∧ ∃ i : ℕ, ∃ hi : i < m.length, m[i] = (c, -s) ∧
    (∀ j : ℕ, ∀ hj : j < m.length, j < i → -(m[j]).2 < s) ∧
    (∀ j : ℕ, ∀ hj : j < m.length, -(m[j]).2 ≤ s)

lemma upsert_keys_mem (m : List (String × ℚ)) (k k₀ : String) (v : ℚ) :
    k₀ ∈ (upsert m k v).map Prod.fst ↔ k₀ ∈ m.map Prod.fst ∨ k₀ = k := by
  induction m with
  | nil => simp [upsert]
  | cons kv rest ih =>
      obtain ⟨k₁, v₁⟩ := kv
      by_cases h : k₁ = k
      · subst h
        simp [upsert]
        tauto
      · simp [upsert, h, ih]
        tauto

lemma upsert_keys_nodup (m : List (String × ℚ)) (k : String) (v : ℚ)
    (h : (m.map Prod.fst).Nodup) : ((upsert m k v).map Prod.fst).Nodup := by
  induction m with
  | nil => simp [upsert]
  | cons kv rest ih =>
      obtain ⟨k₁, v₁⟩ := kv
      simp only [List.map_cons, List.nodup_cons] at h
      by_cases hk : k₁ = k
      · subst hk
        simpa [upsert] using h
      · simp only [upsert, if_neg hk, List.map_cons, List.nodup_cons,
          upsert_keys_mem]
        exact ⟨fun hc => hc.elim h.1 hk, ih h.2⟩

lemma byCategory_keys_nodup (ts : List Txn) :
    ((byCategory ts).map Prod.fst).Nodup := by
  suffices h : ∀ m : List (String × ℚ), (m.map Prod.fst).Nodup →
      ((ts.foldl (fun m t => upsert m (txCategory t) t.amount) m).map
        Prod.fst).Nodup by
    exact h [] (by simp)
  induction ts with
  | nil => intro m hm; simpa using hm
  | cons t rest ih =>
      intro m hm
      exact ih _ (upsert_keys_nodup _ _ _ hm)

lemma filter_matching_of_nodup (m : List (String × ℚ)) (k : String) (v : ℚ)
    (hnd : (m.map Prod.fst).Nodup) (hmem : (k, v) ∈ m) :
    m.filter (fun kv => kv.1 == k && decide (kv.2 < 0)) =
      if v < 0 then [(k, v)] else [] := by
  induction m with
  | nil => cases hmem
  | cons kv rest ih =>
      simp only [List.map_cons, List.nodup_cons] at hnd
      have hrest_nil : k ∉ rest.map Prod.fst →
          rest.filter (fun kv => kv.1 == k && decide (kv.2 < 0)) = [] := by
        intro hk
        refine List.filter_eq_nil_iff.mpr fun kv₀ hkv₀ => ?_
        have : kv₀.1 ≠ k := fun he =>
          hk (he ▸ List.mem_map_of_mem Prod.fst hkv₀)
        simp [this]
      rcases List.mem_cons.mp hmem with heq | hrest
      · subst heq
        have hnot : k ∉ rest.map Prod.fst := hnd.1
        rcases lt_or_le v 0 with hv | hv
        · simp [List.filter_cons, hv, hrest_nil hnot]
        · simp [List.filter_cons, not_lt.mpr hv, hrest_nil hnot]
      · have hk1 : kv.1 ≠ k := by
          intro he
          exact hnd.1 (he ▸ List.mem_map_of_mem Prod.fst hrest)
        simp only [List.filter_cons, hk1, beq_iff_eq, Bool.false_and,
          if_neg, Bool.and_eq_true, beq_eq_false_iff_ne, ne_eq]
        rw [if_neg (by simp [hk1])]
        exact ih hnd.2 hrest

lemma spentFor_of_mem (ts : List Txn) (b : Budget) (v : ℚ)
    (hmem : (lowerStr b.category, v) ∈ byCategory ts) :
    spentFor (byCategory ts) b = if v < 0 then -v else 0 := by
  unfold spentFor
  rw [filter_matching_of_nodup _ _ _ (byCategory_keys_nodup ts) hmem]
  split <;> simp

lemma neg_sum_eq_abs_sum (l : List (String × ℚ)) (h : ∀ kv ∈ l, kv.2 < 0) :
    -((l.map Prod.snd).sum) = (l.map (fun kv => |kv.2|)).sum := by
  induction l with
  | nil => simp
  | cons kv rest ih =>
      have hkv := h kv (List.mem_cons_self kv rest)
      have hrest := ih fun kv₀ h₀ => h kv₀ (List.mem_cons_of_mem kv h₀)
      simp only [List.map_cons, List.sum_cons, neg_add, hrest,
        abs_of_neg hkv]

lemma spentFor_abs (m : List (String × ℚ)) (b : Budget) :
    spentFor m b =
      ((m.filter (fun kv => kv.1 == lowerStr b.category &&
          decide (kv.2 < 0))).map (fun kv => |kv.2|)).sum := by
  unfold spentFor
  refine neg_sum_eq_abs_sum _ fun kv hkv => ?_
  have := List.of_mem_filter hkv
  simp only [Bool.and_eq_true, decide_eq_true_eq] at this
  exact this.2

lemma spentFor_congr (m : List (String × ℚ)) (b b₁ : Budget)
    (h : b.category = b₁.category) : spentFor m b = spentFor m b₁ := by
  unfold spentFor
  rw [h]

lemma topExpense_concat (m : List (String × ℚ)) (x : String × ℚ) :
    topExpense (m ++ [x]) = topFoldStep (topExpense m) x := by
  simp [topExpense, List.foldl_append]

lemma topExpense_inv (m : List (String × ℚ)) :
    0 ≤ (topExpense m).2 ∧
    (∀ kv ∈ m, -kv.2 ≤ (topExpense m).2) ∧
    ((topExpense m).1 = none → (topExpense m).2 = 0) ∧
    (∀ c s, topExpense m = (some c, s) → isTopExpense m c s) := by
  induction m using List.reverseRecOn with
  | nil => simp [topExpense, isTopExpense]
  | append_singleton m x ih =>
      obtain ⟨ih0, ihb, ihn, ihs⟩ := ih
      rw [topExpense_concat]
      unfold topFoldStep
      by_cases hx : x.2 < 0 ∧ (topExpense m).2 < -x.2
      · rw [if_pos hx]
        refine ⟨le_of_lt (lt_of_le_of_lt ih0 hx.2), ?_, by simp, ?_⟩
        · intro kv hkv
          rcases List.mem_append.mp hkv with h | h
          · exact le_of_lt (lt_of_le_of_lt (ihb kv h) hx.2)
          · simp only [List.mem_singleton] at h
            subst h
            exact le_refl _
        · intro c s heq
          simp only [Prod.mk.injEq, Option.some.injEq] at heq
          obtain ⟨hc, hs⟩ := heq
          subst hc
          subst hs
          refine ⟨lt_of_le_of_lt ih0 hx.2, m.length, by simp, ?_, ?_, ?_⟩
          · rw [List.getElem_append_right (le_refl m.length)]
            simp
          · intro j hjlen hj
            have hjm : j < m.length := hj
            rw [List.getElem_append_left hjm]
            exact lt_of_le_of_lt (ihb _ (List.getElem_mem hjm)) hx.2
          · intro j hjlen
            rcases lt_or_le j m.length with hjm | hjm
            · rw [List.getElem_append_left hjm]
              exact le_of_lt
                (lt_of_le_of_lt (ihb _ (List.getElem_mem hjm)) hx.2)
            · rw [List.getElem_append_right hjm]
              simp
      · rw [if_neg hx]
        have hxle : -x.2 ≤ (topExpense m).2 := by
          rcases lt_or_le x.2 0 with h | h
          · by_contra hcon
            exact hx ⟨h, lt_of_not_le hcon⟩
          · exact le_trans (by linarith) ih0
        refine ⟨ih0, ?_, ihn, ?_⟩
        · intro kv hkv
          rcases List.mem_append.mp hkv with h | h
          · exact ihb kv h
          · simp only [List.mem_singleton] at h
            subst h
            exact hxle
        · intro c s heq
          obtain ⟨hs, i, hi, hget, hlt, hle⟩ := ihs c s heq
          have hs2 : (topExpense m).2 = s := by
            rw [heq]
          refine ⟨hs, i, by simp; omega, ?_, ?_, ?_⟩
          · rw [List.getElem_append_left hi]
            exact hget
          · intro j hjlen hj
            have hjm : j < m.length := lt_trans hj hi
            rw [List.getElem_append_left hjm]
            exact hlt j hjm hj
          · intro j hjlen
            rcases lt_or_le j m.length with hjm | hjm
            · rw [List.getElem_append_left hjm]
              exact hle j hjm
            · rw [List.getElem_append_right hjm]
              rw [List.getElem_singleton]
              rw [← hs2]
              exact hxle

lemma isTopExpense_unique (m : List (String × ℚ)) (c c₁ : String) (s s₁ : ℚ)
    (h : isTopExpense m c s) (h₁ : isTopExpense m c₁ s₁) : c = c₁ ∧ s = s₁ := by
  obtain ⟨hs, i, hi, hget, hlt, hle⟩ := h
  obtain ⟨hs₁, i₁, hi₁, hget₁, hlt₁, hle₁⟩ := h₁
  have hla : s₁ ≤ s := by
    have := hle i₁ hi₁
    rw [hget₁] at this
    simpa using this
  have hlb : s ≤ s₁ := by
    have := hle₁ i hi
    rw [hget] at this
    simpa using this
  have hss : s = s₁ := le_antisymm hlb hla
  subst hss
  have hii : i = i₁ := by
    rcases lt_trichotomy i i₁ with h | h | h
    · exfalso
      have := hlt₁ i hi h
      rw [hget] at this
      simp at this
    · exact h
    · exfalso
      have := hlt i₁ hi₁ h
      rw [hget₁] at this
      simp at this
  subst hii
  rw [hget] at hget₁
  simp only [Prod.mk.injEq] at hget₁
  exact ⟨hget₁.1, rfl⟩

lemma topExpense_eq_iff (m : List (String × ℚ)) (c : String) (s : ℚ) :
    topExpense m = (some c, s) ↔ isTopExpense m c s := by
  constructor
  · exact (topExpense_inv m).2.2.2 c s
  · intro h
    obtain ⟨hs, i, hi, hget, hlt, hle⟩ := h
    rcases hp : topExpense m with ⟨o, t⟩
    rcases o with _ | c₁
    · exfalso
      have ht0 : t = 0 := by
        have := (topExpense_inv m).2.2.1
        rw [hp] at this
        exact this rfl
      have hmem : (c, -s) ∈ m := hget ▸ List.getElem_mem hi
      have := (topExpense_inv m).2.1 (c, -s) hmem
      rw [hp, ht0] at this
      simp at this
      linarith
    · have h₁ : isTopExpense m c₁ t := (topExpense_inv m).2.2.2 c₁ t hp
      have := isTopExpense_unique m c c₁ s t ⟨hs, i, hi, hget, hlt, hle⟩ h₁
      rw [this.1, this.2]

lemma mem_tips_iff (ts : List Txn) (bs : List Budget) (t : Tip) :
    t ∈ (analyze_finances ts bs).tips ↔
      t ∈ savingsTipList (totalIncome ts) (totalExpense ts) ∨
      t ∈ overTips (overruns (byCategory ts) bs) ∨
      t ∈ topTipList (byCategory ts) := by
  simp [analyze_finances]

lemma mem_savingsTipList (income expense : ℚ) (t : Tip) :
    t ∈ savingsTipList income expense ↔
      0 < expense ∧ 0 < income ∧
        t = Tip.savingsRate (max ((income - expense) / income) 0) := by
  unfold savingsTipList
  split
  · rename_i hcond
    simp [hcond.1, hcond.2]
  · rename_i hcond
    simp only [List.not_mem_nil, false_iff]
    intro hc
    exact hcond ⟨hc.1, hc.2.1⟩

lemma mem_overTips (overs : List Over) (t : Tip) :
    t ∈ overTips overs ↔
      ∃ o ∈ overs, t = Tip.overBudget o.category (o.spent - o.budget) := by
  simp only [overTips, List.mem_map]
  constructor
  · rintro ⟨o, ho, rfl⟩
    exact ⟨o, ho, rfl⟩
  · rintro ⟨o, ho, rfl⟩
    exact ⟨o, ho, rfl⟩

lemma mem_topTipList (m : List (String × ℚ)) (t : Tip) :
    t ∈ topTipList m ↔
      ∃ c s, t = Tip.topExpense c s ∧ c ≠ "" ∧ topExpense m = (some c, s) := by
  unfold topTipList
  rcases hp : topExpense m with ⟨o, s₀⟩
  rcases o with _ | c₀
  · simp
  · by_cases hc : c₀ = ""
    · subst hc
      simp
      intro c s _ hne he
      exact absurd he.symm hne
    · simp only [if_neg hc, List.mem_singleton]
      constructor
      · rintro rfl
        exact ⟨c₀, s₀, rfl, hc, rfl⟩
      · rintro ⟨c, s, rfl, hne, heq⟩
        simp only [Prod.mk.injEq, Option.some.injEq] at heq
        rw [heq.1, heq.2]

lemma neg_min_sum (l : List ℚ) :
    -((l.map (fun a => min a 0)).sum) =
      ((l.filter (fun a => decide (a ≤ 0))).map (fun a => |a|)).sum := by
  induction l with
  | nil => simp
  | cons a rest ih =>
      simp only [List.map_cons, List.sum_cons, neg_add, ih, List.filter_cons]
      rcases le_or_lt a 0 with h | h
      · rw [if_pos (by simpa using h), List.map_cons, List.sum_cons,
          min_eq_left h, abs_of_nonpos h]
      · rw [if_neg (by simpa using not_le.mpr h), min_eq_right (le_of_lt h),
          neg_zero, zero_add]

/-- C7: for every transaction list, the summary satisfies
`income - expense = net`, where income is the sum of all positive amounts
and expense is the sum of absolute values of all non-positive amounts. -/
theorem analyze_summary_identity (ts : List Txn) (bs : List Budget) :
    (analyze_finances ts bs).summary.income =
        ((ts.map Txn.amount).filter (fun a => decide (0 < a))).sum ∧
    (analyze_finances ts bs).summary.expense =
        (((ts.map Txn.amount).filter (fun a => decide (a ≤ 0))).map
          (fun a => |a|)).sum ∧
    (analyze_finances ts bs).summary.income -
        (analyze_finances ts bs).summary.expense =
      (analyze_finances ts bs).summary.net := by
  exact ⟨rfl, neg_min_sum (ts.map Txn.amount), rfl⟩

/-- C6: the savings-rate tip is emitted iff both computed income and
computed expense are strictly positive, and its rate equals
`max ((income - expense) / income) 0`, hence is never negative. -/
theorem analyze_savings_tip (ts : List Txn) (bs : List Budget) :
    ((∃ r, Tip.savingsRate r ∈ (analyze_finances ts bs).tips) ↔
      0 < totalIncome ts ∧ 0 < totalExpense ts) ∧
    ∀ r, Tip.savingsRate r ∈ (analyze_finances ts bs).tips →
      r = max ((totalIncome ts - totalExpense ts) / totalIncome ts) 0 ∧
        0 ≤ r := by
  have key : ∀ r : ℚ, Tip.savingsRate r ∈ (analyze_finances ts bs).tips ↔
      (0 < totalExpense ts ∧ 0 < totalIncome ts ∧
        r = max ((totalIncome ts - totalExpense ts) / totalIncome ts) 0) := by
    intro r
    have hB : ¬ Tip.savingsRate r ∈ overTips (overruns (byCategory ts) bs) := by
      rw [mem_overTips]
      rintro ⟨o, _, h⟩
      simp at h
    have hC : ¬ Tip.savingsRate r ∈ topTipList (byCategory ts) := by
      rw [mem_topTipList]
      rintro ⟨c, s, h, _, _⟩
      simp at h
    rw [mem_tips_iff, mem_savingsTipList]
    simp [hB, hC]
  constructor
  · constructor
    · rintro ⟨r, hr⟩
      have h := (key r).mp hr
      exact ⟨h.2.1, h.1⟩
    · rintro ⟨hI, hE⟩
      exact ⟨_, (key _).mpr ⟨hE, hI, rfl⟩⟩
  · intro r hr
    have h := (key r).mp hr
    exact ⟨h.2.2, h.2.2 ▸ le_max_right _ _⟩

/-- C6 witness: on a concrete input with income 100 and expense 20, a
savings-rate tip is present. -/
theorem analyze_savings_tip_witness :
    ∃ r, Tip.savingsRate r ∈
      (analyze_finances [⟨100, some "job"⟩, ⟨-20, some "food"⟩] []).tips := by
  refine (analyze_savings_tip [⟨100, some "job"⟩, ⟨-20, some "food"⟩] []).1.mpr
    ⟨?_, ?_⟩ <;> norm_num [totalIncome, totalExpense]

/-- C5 (amended): the top-expense tip named `(c, s)` is emitted iff `c` is
a non-empty category whose signed total `-s` is the strictly largest
expense magnitude, the first encountered in mapping order among ties. -/
theorem analyze_top_expense_tip (ts : List Txn) (bs : List Budget)
    (c : String) (s : ℚ) :
    Tip.topExpense c s ∈ (analyze_finances ts bs).tips ↔
      c ≠ "" ∧ isTopExpense (byCategory ts) c s := by
  have hA : ¬ Tip.topExpense c s ∈
      savingsTipList (totalIncome ts) (totalExpense ts) := by
    rw [mem_savingsTipList]
    rintro ⟨_, _, h⟩
    simp at h
  have hB : ¬ Tip.topExpense c s ∈ overTips (overruns (byCategory ts) bs) := by
    rw [mem_overTips]
    rintro ⟨o, _, h⟩
    simp at h
  rw [mem_tips_iff, mem_topTipList]
  simp only [hA, hB, false_or, Tip.topExpense.injEq]
  constructor
  · rintro ⟨c₁, s₁, ⟨rfl, rfl⟩, hne, heq⟩
    exact ⟨hne, (topExpense_eq_iff _ _ _).mp heq⟩
  · rintro ⟨hne, h⟩
    exact ⟨c, s, ⟨rfl, rfl⟩, hne, (topExpense_eq_iff _ _ _).mpr h⟩

/-- C5 counterexample: with a single transaction of amount -5 under the
empty-string category, a category with strictly negative total exists but
no top-expense tip is emitted (Python `if top_exp_cat:` is false on the
empty string). -/
theorem analyze_top_expense_tip_cx :
    (∃ kv ∈ byCategory [⟨-5, some ""⟩], kv.2 < 0) ∧
      (analyze_finances [⟨-5, some ""⟩] []).tips = [] := by
  constructor
  · exact ⟨("", -5), by decide, by norm_num⟩
  · norm_num +decide [analyze_finances, totalIncome, totalExpense, byCategory,
      upsert, txCategory, lowerStr, lowerChar, overruns, spentFor,
      savingsTipList, overTips, topExpense, topFoldStep, topTipList,
      List.filterMap_cons]

/-- C5 witness: with expenses rent 200 and food 50, the tip names rent. -/
theorem analyze_top_expense_tip_witness :
    Tip.topExpense "rent" 200 ∈
      (analyze_finances [⟨-200, some "rent"⟩, ⟨-50, some "food"⟩] []).tips := by
  apply (analyze_top_expense_tip _ _ _ _).mpr
  refine ⟨by decide, ?_⟩
  have hbc : byCategory [(⟨-200, some "rent"⟩ : Txn), ⟨-50, some "food"⟩] =
      [("rent", -200), ("food", -50)] := by decide
  unfold isTopExpense
  rw [hbc]
  refine ⟨by norm_num, 0, by norm_num, rfl, ?_, ?_⟩
  · intro j hj hj0
    omega
  · intro j hj
    simp only [List.length_cons, List.length_nil] at hj
    interval_cases j <;> norm_num

/-- C3: the worked example — transactions salary +1000, rent -200,
food -50 and a rent budget of 100 — yields summary
{income 1000, expense 250, net 750}, one rent overrun {rent, 200, 100},
and exactly the three tips: savings rate 3/4, rent over budget by 100, and
top expense rent at 200. -/
theorem analyze_example_eval :
    analyze_finances
      [⟨1000, some "salary"⟩, ⟨-200, some "rent"⟩, ⟨-50, some "food"⟩]
      [⟨"rent", 100⟩] =
    ⟨⟨1000, 250, 750⟩, [⟨"rent", 200, 100⟩],
      [Tip.savingsRate (3/4), Tip.overBudget "rent" 100,
       Tip.topExpense "rent" 200]⟩ := by
  norm_num +decide [analyze_finances, totalIncome, totalExpense, byCategory,
    upsert, txCategory, lowerStr, lowerChar, overruns, spentFor,
    savingsTipList, overTips, topExpense, topFoldStep, topTipList,
    List.filterMap_cons]

/-- C4: for every budget, `spent` is the sum of absolute values of the
negative per-category signed totals whose (lowercased) key equals the
budget's lowercased category, and an overrun record
{category, spent, budget} for that budget is emitted iff `spent` strictly
exceeds the budget's amount. -/
theorem analyze_overrun_iff (ts : List Txn) (bs : List Budget) (b : Budget)
    (hb : b ∈ bs) :
    spentFor (byCategory ts) b =
      (((byCategory ts).filter (fun kv => kv.1 == lowerStr b.category &&
          decide (kv.2 < 0))).map (fun kv => |kv.2|)).sum ∧
    ((∃ o ∈ (analyze_finances ts bs).overs,
        o.category = b.category ∧ o.spent = spentFor (byCategory ts) b ∧
          o.budget = b.amount) ↔
      b.amount < spentFor (byCategory ts) b) := by
  refine ⟨spentFor_abs _ _, ?_, ?_⟩
  · rintro ⟨o, ho, hcat, hspent, hbud⟩
    obtain ⟨b₁, hb₁, hf⟩ := List.mem_filterMap.mp ho
    split at hf
    · rename_i hlt
      obtain rfl := Option.some.inj hf
      simp only at hcat hspent hbud
      rw [← hbud, ← hspent]
      exact hlt
    · cases hf
  · intro hlt
    refine ⟨⟨b.category, spentFor (byCategory ts) b, b.amount⟩, ?_, rfl, rfl, rfl⟩
    exact List.mem_filterMap.mpr ⟨b, hb, by rw [if_pos hlt]⟩

/-- C4 witness: a -150 transaction under "Groceries" counts against a
"groceries" budget of 100 and yields an overrun record. -/
theorem analyze_overrun_iff_witness :
    ∃ o ∈ (analyze_finances [⟨-150, some "Groceries"⟩]
        [⟨"groceries", 100⟩]).overs,
      o.category = "groceries" ∧
        o.spent = spentFor (byCategory [⟨-150, some "Groceries"⟩])
          ⟨"groceries", 100⟩ ∧
        o.budget = 100 := by
  refine ((analyze_overrun_iff [⟨-150, some "Groceries"⟩] [⟨"groceries", 100⟩]
    ⟨"groceries", 100⟩ (by decide)).2).mpr ?_
  have h : spentFor (byCategory [⟨-150, some "Groceries"⟩])
      ⟨"groceries", 100⟩ = 150 := by
    norm_num +decide [byCategory, upsert, txCategory, lowerStr, lowerChar,
      spentFor]
  rw [h]
  norm_num

/-- C1 (amended): a budget with amount 0 yields an overrun record exactly
when the signed total of its (lowercased) category is strictly negative; a
negative transaction alone does not suffice, since income in the same
category can offset it.  Sufficient direction: a negative category total
puts the budget in `overs`. -/
theorem analyze_zero_budget_over (ts : List Txn) (bs : List Budget)
    (b : Budget) (v : ℚ) (hb : b ∈ bs) (h0 : b.amount = 0)
    (hmem : (lowerStr b.category, v) ∈ byCategory ts) (hv : v < 0) :
    ∃ o ∈ (analyze_finances ts bs).overs,
      o.category = b.category ∧ o.spent = -v := by
  have hs : spentFor (byCategory ts) b = -v := by
    rw [spentFor_of_mem ts b v hmem, if_pos hv]
  have hlt : b.amount < spentFor (byCategory ts) b := by
    rw [h0, hs]
    linarith
  refine ⟨⟨b.category, spentFor (byCategory ts) b, b.amount⟩, ?_, rfl, hs⟩
  exact List.mem_filterMap.mpr ⟨b, hb, by rw [if_pos hlt]⟩

/-- C1 counterexample: the claim as stated fails — the transaction list
holds a negative food transaction matching the zero budget's category, yet
`overs` is empty, because the +100 income in the same category makes the
signed food total positive. -/
theorem analyze_zero_budget_over_cx :
    ((⟨"food", 0⟩ : Budget).amount = 0 ∧
      (∃ t ∈ ([⟨-50, some "food"⟩, ⟨100, some "food"⟩] : List Txn),
        t.amount < 0 ∧ txCategory t = lowerStr (⟨"food", 0⟩ : Budget).category)) ∧
    (analyze_finances [⟨-50, some "food"⟩, ⟨100, some "food"⟩]
        [⟨"food", 0⟩]).overs = [] := by
  refine ⟨⟨rfl, ⟨⟨-50, some "food"⟩, by decide, by norm_num, by decide⟩⟩, ?_⟩
  norm_num +decide [analyze_finances, totalIncome, totalExpense, byCategory,
    upsert, txCategory, lowerStr, lowerChar, overruns, spentFor,
    savingsTipList, overTips, topExpense, topFoldStep, topTipList,
    List.filterMap_cons]

/-- C1 witness: a -50 transaction under "Food" with a zero "food" budget
produces an overrun record for that budget. -/
theorem analyze_zero_budget_over_witness :
    ∃ o ∈ (analyze_finances [⟨-50, some "Food"⟩] [⟨"food", 0⟩]).overs,
      o.category = "food" ∧ o.spent = -(-50 : ℚ) := by
  refine analyze_zero_budget_over _ _ ⟨"food", 0⟩ (-50) (by decide) rfl ?_
    (by norm_num)
  show (lowerStr "food", (-50 : ℚ)) ∈ byCategory [⟨-50, some "Food"⟩]
  decide

/-- C8: the engine is total over well-typed input by construction (every
operation is a total function and the one division is guarded), and a
transaction whose category field is absent is aggregated exactly as if it
carried the category "uncategorized". -/
theorem analyze_missing_category_default (a : ℚ) (ts₁ ts₂ : List Txn)
    (bs : List Budget) :
    analyze_finances (ts₁ ++ ⟨a, none⟩ :: ts₂) bs =
      analyze_finances (ts₁ ++ ⟨a, some "uncategorized"⟩ :: ts₂) bs := by
  have hamt : (ts₁ ++ (⟨a, none⟩ : Txn) :: ts₂).map Txn.amount =
      (ts₁ ++ (⟨a, some "uncategorized"⟩ : Txn) :: ts₂).map Txn.amount := by
    simp
  have hbc : byCategory (ts₁ ++ ⟨a, none⟩ :: ts₂) =
      byCategory (ts₁ ++ ⟨a, some "uncategorized"⟩ :: ts₂) := by
    unfold byCategory
    rw [List.foldl_append, List.foldl_append]
    rfl
  unfold analyze_finances totalIncome totalExpense
  rw [hamt, hbc]

lemma mem_summaryGroup (q : String) (ins : Insights) (p : ReplyPart) :
    p ∈ summaryGroup q ins ↔ matchesAny q summaryKeys = true ∧
      p = ReplyPart.overview ins.summary.income ins.summary.expense
        ins.summary.net := by
  unfold summaryGroup
  split <;> rename_i h <;> simp [h]

lemma mem_budgetGroup (q : String) (ins : Insights) (p : ReplyPart) :
    p ∈ budgetGroup q ins ↔ matchesAny q budgetKeys = true ∧
      ((ins.overs = [] ∧ p = ReplyPart.withinBudgets) ∨
        ∃ o ∈ ins.overs,
          p = ReplyPart.overrun o.category o.spent o.budget) := by
  unfold budgetGroup
  split <;> rename_i h
  · split <;> rename_i h₂
    · have he : ins.overs = [] := by simpa [List.isEmpty_iff] using h₂
      simp [h, he]
    · have hne : ¬ ins.overs = [] := by simpa [List.isEmpty_iff] using h₂
      simp only [h, hne, true_and, false_and, false_or, List.mem_map]
      constructor
      · rintro ⟨o, ho, rfl⟩
        exact ⟨o, ho, rfl⟩
      · rintro ⟨o, ho, rfl⟩
        exact ⟨o, ho, rfl⟩
  · simp [h]

lemma mem_tipsGroup (q : String) (ins : Insights) (p : ReplyPart) :
    p ∈ tipsGroup q ins ↔ matchesAny q tipKeys = true ∧
      ((ins.tips = [] ∧ p = ReplyPart.fallbackTip) ∨
        ∃ t ∈ ins.tips, p = ReplyPart.tipPart t) := by
  unfold tipsGroup
  split <;> rename_i h
  · split <;> rename_i h₂
    · have he : ins.tips = [] := by simpa [List.isEmpty_iff] using h₂
      simp [h, he]
    · have hne : ¬ ins.tips = [] := by simpa [List.isEmpty_iff] using h₂
      simp only [h, hne, true_and, false_and, false_or, List.mem_map]
      constructor
      · rintro ⟨t, ht, rfl⟩
        exact ⟨t, ht, rfl⟩
      · rintro ⟨t, ht, rfl⟩
        exact ⟨t, ht, rfl⟩
  · simp [h]

lemma mem_respond (msg : String) (ins : Insights) (p : ReplyPart) :
    p ∈ respond msg ins ↔
      ((p ∈ summaryGroup (lowerStr msg) ins ∨
        p ∈ budgetGroup (lowerStr msg) ins ∨
        p ∈ tipsGroup (lowerStr msg) ins) ∨
      (summaryGroup (lowerStr msg) ins = [] ∧
        budgetGroup (lowerStr msg) ins = [] ∧
        tipsGroup (lowerStr msg) ins = [] ∧
        p = ReplyPart.defaultOverview ins.summary.income
          ins.summary.expense)) := by
  unfold respond
  by_cases h : (summaryGroup (lowerStr msg) ins ++ budgetGroup (lowerStr msg)
      ins ++ tipsGroup (lowerStr msg) ins).isEmpty = true
  · rw [if_pos h]
    have h₃ : summaryGroup (lowerStr msg) ins = [] ∧
        budgetGroup (lowerStr msg) ins = [] ∧
        tipsGroup (lowerStr msg) ins = [] := by
      simpa [List.isEmpty_iff, List.append_eq_nil] using h
    simp [h₃.1, h₃.2.1, h₃.2.2]
  · rw [if_neg h]
    have h₃ : ¬(summaryGroup (lowerStr msg) ins = [] ∧
        budgetGroup (lowerStr msg) ins = [] ∧
        tipsGroup (lowerStr msg) ins = []) := by
      simpa [List.isEmpty_iff, List.append_eq_nil, and_assoc] using h
    simp only [List.mem_append]
    constructor
    · intro hp
      exact Or.inl (by tauto)
    · rintro (hp | hp)
      · tauto
      · exact absurd ⟨hp.1, hp.2.1, hp.2.2.1⟩ h₃

lemma respond_of_groups_ne (msg : String) (ins : Insights)
    (h : (summaryGroup (lowerStr msg) ins ++ budgetGroup (lowerStr msg) ins ++
        tipsGroup (lowerStr msg) ins) ≠ []) :
    respond msg ins = summaryGroup (lowerStr msg) ins ++
      budgetGroup (lowerStr msg) ins ++ tipsGroup (lowerStr msg) ins := by
  unfold respond
  rw [if_neg (by simpa [List.isEmpty_iff] using h)]

lemma respond_within_mem (msg : String) (ins : Insights)
    (hm : matchesAny (lowerStr msg) budgetKeys = true) (ho : ins.overs = []) :
    ReplyPart.withinBudgets ∈ respond msg ins :=
  (mem_respond msg ins _).mpr (Or.inl (Or.inr (Or.inl
    ((mem_budgetGroup _ _ _).mpr ⟨hm, Or.inl ⟨ho, rfl⟩⟩))))

lemma respond_overrun_mem (msg : String) (ins : Insights)
    (hm : matchesAny (lowerStr msg) budgetKeys = true) (o : Over)
    (ho : o ∈ ins.overs) :
    ReplyPart.overrun o.category o.spent o.budget ∈ respond msg ins :=
  (mem_respond msg ins _).mpr (Or.inl (Or.inr (Or.inl
    ((mem_budgetGroup _ _ _).mpr ⟨hm, Or.inr ⟨o, ho, rfl⟩⟩))))

lemma respond_no_overrun (msg : String) (ins : Insights)
    (ho : ins.overs = []) (c : String) (s b : ℚ) :
    ReplyPart.overrun c s b ∉ respond msg ins := by
  intro h
  rcases (mem_respond msg ins _).mp h with (h | h | h) | h
  · obtain ⟨_, hcl⟩ := (mem_summaryGroup _ _ _).mp h
    exact absurd hcl (by simp)
  · obtain ⟨_, hcl | hcl⟩ := (mem_budgetGroup _ _ _).mp h
    · exact absurd hcl.2 (by simp)
    · obtain ⟨o, hom, _⟩ := hcl
      rw [ho] at hom
      cases hom
  · obtain ⟨_, hcl | hcl⟩ := (mem_tipsGroup _ _ _).mp h
    · exact absurd hcl.2 (by simp)
    · obtain ⟨t, _, hcl⟩ := hcl
      exact absurd hcl (by simp)
  · exact absurd h.2.2.2 (by simp)

lemma respond_fallback_mem (msg : String) (ins : Insights)
    (hm : matchesAny (lowerStr msg) tipKeys = true) (ht : ins.tips = []) :
    ReplyPart.fallbackTip ∈ respond msg ins :=
  (mem_respond msg ins _).mpr (Or.inl (Or.inr (Or.inr
    ((mem_tipsGroup _ _ _).mpr ⟨hm, Or.inl ⟨ht, rfl⟩⟩))))

lemma respond_no_tipPart (msg : String) (ins : Insights)
    (ht : ins.tips = []) (t : Tip) :
    ReplyPart.tipPart t ∉ respond msg ins := by
  intro h
  rcases (mem_respond msg ins _).mp h with (h | h | h) | h
  · obtain ⟨_, hcl⟩ := (mem_summaryGroup _ _ _).mp h
    exact absurd hcl (by simp)
  · obtain ⟨_, hcl | hcl⟩ := (mem_budgetGroup _ _ _).mp h
    · exact absurd hcl.2 (by simp)
    · obtain ⟨o, _, hcl⟩ := hcl
      exact absurd hcl (by simp)
  · obtain ⟨_, hcl | hcl⟩ := (mem_tipsGroup _ _ _).mp h
    · exact absurd hcl.2 (by simp)
    · obtain ⟨t₁, htm, _⟩ := hcl
      rw [ht] at htm
      cases htm
  · exact absurd h.2.2.2 (by simp)

lemma summaryGroup_eq_nil (q : String) (ins : Insights) :
    summaryGroup q ins = [] ↔ matchesAny q summaryKeys = false := by
  unfold summaryGroup
  split <;> rename_i h <;> simp [h]

lemma budgetGroup_eq_nil (q : String) (ins : Insights) :
    budgetGroup q ins = [] ↔ matchesAny q budgetKeys = false := by
  unfold budgetGroup
  split <;> rename_i h
  · split <;> rename_i h₂
    · simp [h]
    · have hne : ¬ ins.overs = [] := by simpa [List.isEmpty_iff] using h₂
      simp [h, List.map_eq_nil_iff, hne]
  · simp [h]

lemma tipsGroup_eq_nil (q : String) (ins : Insights) :
    tipsGroup q ins = [] ↔ matchesAny q tipKeys = false := by
  unfold tipsGroup
  split <;> rename_i h
  · split <;> rename_i h₂
    · simp [h]
    · have hne : ¬ ins.tips = [] := by simpa [List.isEmpty_iff] using h₂
      simp [h, List.map_eq_nil_iff, hne]
  · simp [h]

/-- C2 (amended): the responder checks the lowercased message against the
source keyword lists (`summaryKeys`, `budgetKeys`, `tipKeys`); a message
matching a budget keyword — "budget", "over budget", "overspent" or
"overspending", but not the bare substring "overspend" — receives the
budget sentence group, and the reply is the single default overview
sentence exactly when no keyword of any of the three lists occurs in the
message. -/
theorem respond_keyword_routing (msg : String) (ins : Insights) :
    (matchesAny (lowerStr msg) budgetKeys = true →
      ((ins.overs = [] → ReplyPart.withinBudgets ∈ respond msg ins) ∧
        ∀ o ∈ ins.overs,
          ReplyPart.overrun o.category o.spent o.budget ∈ respond msg ins)) ∧
    (respond msg ins =
        [ReplyPart.defaultOverview ins.summary.income ins.summary.expense] ↔
      (matchesAny (lowerStr msg) summaryKeys = false ∧
        matchesAny (lowerStr msg) budgetKeys = false ∧
        matchesAny (lowerStr msg) tipKeys = false)) := by
  constructor
  · intro hm
    exact ⟨fun ho => respond_within_mem msg ins hm ho,
      fun o ho => respond_overrun_mem msg ins hm o ho⟩
  · constructor
    · intro he
      have hall : summaryGroup (lowerStr msg) ins = [] ∧
          budgetGroup (lowerStr msg) ins = [] ∧
          tipsGroup (lowerStr msg) ins = [] := by
        by_contra hne
        have hgne : (summaryGroup (lowerStr msg) ins ++
            budgetGroup (lowerStr msg) ins ++
            tipsGroup (lowerStr msg) ins) ≠ [] := by
          intro h0
          exact hne (by simpa [List.append_eq_nil, and_assoc] using h0)
        rw [respond_of_groups_ne msg ins hgne] at he
        have hd : ReplyPart.defaultOverview ins.summary.income
            ins.summary.expense ∈
            summaryGroup (lowerStr msg) ins ++ budgetGroup (lowerStr msg) ins
              ++ tipsGroup (lowerStr msg) ins := by
          rw [he]
          exact List.mem_singleton_self _
        rcases List.mem_append.mp hd with hd | hd
        · rcases List.mem_append.mp hd with hd | hd
          · obtain ⟨_, hcl⟩ := (mem_summaryGroup _ _ _).mp hd
            exact absurd hcl (by simp)
          · obtain ⟨_, hcl | hcl⟩ := (mem_budgetGroup _ _ _).mp hd
            · exact absurd hcl.2 (by simp)
            · obtain ⟨o, _, hcl⟩ := hcl
              exact absurd hcl (by simp)
        · obtain ⟨_, hcl | hcl⟩ := (mem_tipsGroup _ _ _).mp hd
          · exact absurd hcl.2 (by simp)
          · obtain ⟨t, _, hcl⟩ := hcl
            exact absurd hcl (by simp)
      exact ⟨(summaryGroup_eq_nil _ _).mp hall.1,
        (budgetGroup_eq_nil _ _).mp hall.2.1,
        (tipsGroup_eq_nil _ _).mp hall.2.2⟩
    · rintro ⟨h₁, h₂, h₃⟩
      unfold respond
      rw [(summaryGroup_eq_nil _ _).mpr h₁, (budgetGroup_eq_nil _ _).mpr h₂,
        (tipsGroup_eq_nil _ _).mpr h₃]
      simp

/-- C2 counterexample: the lowercased message "did i overspend" contains
the substring "overspend", yet even with a non-empty overrun list the
reply is the single default overview sentence — no budget sentence is
included, because the code's keyword list holds only "budget",
"over budget", "overspent" and "overspending". -/
theorem respond_keyword_routing_cx :
    strContains (lowerStr "did i overspend") "overspend" = true ∧
      respond "did i overspend" ⟨⟨0, 0, 0⟩, [⟨"rent", 200, 100⟩], []⟩ =
        [ReplyPart.defaultOverview 0 0] := by
  decide

/-- C2 witness: "am i over budget" gets the overrun sentence, and
"hello there" gets exactly the default overview sentence. -/
theorem respond_keyword_routing_witness :
    ReplyPart.overrun "rent" 200 100 ∈
      respond "am i over budget" ⟨⟨0, 0, 0⟩, [⟨"rent", 200, 100⟩], []⟩ ∧
    respond "hello there" ⟨⟨1, 2, -1⟩, [], []⟩ =
      [ReplyPart.defaultOverview 1 2] := by
  constructor
  · exact ((respond_keyword_routing "am i over budget"
      ⟨⟨0, 0, 0⟩, [⟨"rent", 200, 100⟩], []⟩).1 (by decide)).2
      ⟨"rent", 200, 100⟩ (by decide)
  · exact (respond_keyword_routing "hello there"
      ⟨⟨1, 2, -1⟩, [], []⟩).2.mpr (by decide)

/-- C9: when the lowercased message matches a budget keyword and the
computed overrun list is empty, the reply holds the within-budgets
sentence and no overrun sentence. -/
theorem respond_within_budgets (msg : String) (ins : Insights)
    (hm : matchesAny (lowerStr msg) budgetKeys = true)
    (ho : ins.overs = []) :
    ReplyPart.withinBudgets ∈ respond msg ins ∧
      ∀ c s b, ReplyPart.overrun c s b ∉ respond msg ins :=
  ⟨respond_within_mem msg ins hm ho,
    fun c s b => respond_no_overrun msg ins ho c s b⟩

/-- C9 witness: the message "show budget" with empty overruns. -/
theorem respond_within_budgets_witness :
    ReplyPart.withinBudgets ∈ respond "show budget" ⟨⟨0, 0, 0⟩, [], []⟩ ∧
      ∀ c s b, ReplyPart.overrun c s b ∉
        respond "show budget" ⟨⟨0, 0, 0⟩, [], []⟩ :=
  respond_within_budgets "show budget" ⟨⟨0, 0, 0⟩, [], []⟩ (by decide) rfl

/-- C10: when the lowercased message matches a tip keyword and the
computed tips list is empty, the fallback sentence is appended in place of
the tips. -/
theorem respond_fallback_tip (msg : String) (ins : Insights)
    (hm : matchesAny (lowerStr msg) tipKeys = true) (ht : ins.tips = []) :
    ReplyPart.fallbackTip ∈ respond msg ins ∧
      ∀ t, ReplyPart.tipPart t ∉ respond msg ins :=
  ⟨respond_fallback_mem msg ins hm ht,
    fun t => respond_no_tipPart msg ins ht t⟩

/-- C10 witness: the message "give tips" with an empty tips list. -/
theorem respond_fallback_tip_witness :
    ReplyPart.fallbackTip ∈ respond "give tips" ⟨⟨0, 0, 0⟩, [], []⟩ ∧
      ∀ t, ReplyPart.tipPart t ∉ respond "give tips" ⟨⟨0, 0, 0⟩, [], []⟩ :=
  respond_fallback_tip "give tips" ⟨⟨0, 0, 0⟩, [], []⟩ (by decide) rfl
